import Mathlib

/-!
Shallow embedding of the auto_api repository (an autonomous API
documentation generator): src/auto_api/core/analyser.py,
src/auto_api/core/monitor.py and src/auto_api/core/models.py, together
with proofs about the embedded code.

Python source files are embedded as an abstract syntax tree (Stmt),
carrying exactly the node shapes the two ast.NodeVisitor subclasses of
analyser.py distinguish: synchronous and asynchronous function
definitions, plain import statements, from-import statements, and a
generic node for every other statement kind (whose child statements the
visitors still traverse via generic_visit).
-/

namespace AutoAPI

/-- One alias of a Python import statement: name, or name with an asname. -/
structure ImportAlias where
  name : String
  asname : Option String
deriving DecidableEq, Repr

/-- Embedded Python AST, restricted to the shapes analyser.py inspects.
The docstring field is the result of ast.get_docstring: none when the
function has no docstring.  The other constructor stands for any other
statement, keeping only the child statements that
ast.NodeVisitor.generic_visit would recurse into. -/
inductive Stmt where
  | funcDef (name : String) (args : List String) (docstring : Option String)
      (body : List Stmt)
  | asyncFuncDef (name : String) (args : List String) (docstring : Option String)
      (body : List Stmt)
  | importStmt (names : List ImportAlias)
  | importFrom (moduleName : String) (names : List ImportAlias)
  | other (children : List Stmt)

/-- True exactly on synchronous def nodes (ast.FunctionDef). -/
def Stmt.isFuncDef : Stmt → Bool
  | .funcDef _ _ _ _ => true
  | _ => false

/-- True exactly on async def nodes (ast.AsyncFunctionDef). -/
def Stmt.isAsyncFuncDef : Stmt → Bool
  | .asyncFuncDef _ _ _ _ => true
  | _ => false

/-- Accessor for func.name of a function node. -/
def Stmt.funcName : Stmt → String
  | .funcDef n _ _ _ => n
  | .asyncFuncDef n _ _ _ => n
  | _ => ""

/-- Accessor for the list comprehension over func.args.args. -/
def Stmt.funcArgs : Stmt → List String
  | .funcDef _ a _ _ => a
  | .asyncFuncDef _ a _ _ => a
  | _ => []

/-- Accessor for ast.get_docstring applied to a function node. -/
def Stmt.funcDocstring : Stmt → Option String
  | .funcDef _ _ d _ => d
  | .asyncFuncDef _ _ d _ => d
  | _ => none

/-- Child statements a generic_visit call recurses into. -/
def Stmt.children : Stmt → List Stmt
  | .funcDef _ _ _ b => b
  | .asyncFuncDef _ _ _ b => b
  | .importStmt _ => []
  | .importFrom _ _ => []
  | .other cs => cs

mutual

/-- Embedding of CodeAnalyser._get_functions (analyser.py lines 89-106) on
one statement: the FunctionVisitor overrides only visit_FunctionDef, which
first calls generic_visit on the node and then appends the node, so
collection is post-order (inner functions before their enclosing function);
async def nodes are not appended but their children are still traversed. -/
def getFunctionsStmt : Stmt → List Stmt
  | .funcDef n a d b => getFunctionsList b ++ [.funcDef n a d b]
  | .asyncFuncDef _ _ _ b => getFunctionsList b
  | .importStmt _ => []
  | .importFrom _ _ => []
  | .other cs => getFunctionsList cs

/-- Embedding of CodeAnalyser._get_functions on a statement list; applied to
a whole module body it is the visitor run on the Module node. -/
def getFunctionsList : List Stmt → List Stmt
  | [] => []
  | s :: rest => getFunctionsStmt s ++ getFunctionsList rest

end

/-- The string visit_Import records for one alias: the alias name followed
by the literal text " as " and the asname when an asname is set, else the
alias name alone. -/
def formatAlias (a : ImportAlias) : String :=
  match a.asname with
  | some an => a.name ++ " as " ++ an
  | none => a.name

mutual

/-- Embedding of CodeAnalyser._get_imports (analyser.py lines 108-128) on
one statement: the ImportVisitor overrides only visit_Import; from-import
statements fall to generic_visit and contribute nothing. -/
def getImportsStmt : Stmt → List String
  | .funcDef _ _ _ b => getImportsList b
  | .asyncFuncDef _ _ _ b => getImportsList b
  | .importStmt ns => ns.map formatAlias
  | .importFrom _ _ => []
  | .other cs => getImportsList cs

/-- Embedding of CodeAnalyser._get_imports on a statement list. -/
def getImportsList : List Stmt → List String
  | [] => []
  | s :: rest => getImportsStmt s ++ getImportsList rest

end

/-- Occurs f s holds when the statement f is s itself or occurs anywhere in
the statement tree below s, i.e. f is one of the nodes a full visitor
traversal starting at s reaches. -/
inductive Occurs : Stmt → Stmt → Prop where
  | refl (s : Stmt) : Occurs s s
  | child (f c s : Stmt) : c ∈ s.children → Occurs f c → Occurs f s

/-- APIDocumentationEntry from models.py.  The analyser always supplies
every field; the docstring field is built by the code with
ast.get_docstring followed by an or with the empty string, so it is a
plain String here. -/
structure APIDocumentationEntry where
  module_name : String
  function_name : String
  parameters : List String
  docstring : String
  imported_modules : List String
deriving DecidableEq, Repr

/-- Embedding of os.path.splitext restricted to its first component, applied
to a bare file name: the name is split at its last dot, except that a dot
with no non-dot character before it (leading dots of the base name) does not
count as an extension separator.  analyser.py line 62 feeds the result
to the importlib.import_module call. -/
def splitextStem (s : String) : String :=
  let rcs := s.toList.reverse
  if rcs.contains '.' then
    let stemRev := (rcs.dropWhile (fun c => c ≠ '.')).drop 1
    if stemRev.any (fun c => c ≠ '.') then String.mk stemRev.reverse else s
  else s

/-- Python exceptions that the per-file try block of analyze_codebase can
observe in the embedding: the open or read failing, 1 divided by a zero
max_retries, time.sleep rejecting the negative argument 1 divided by a
negative max_retries, ast.parse failing, and importlib.import_module
failing. -/
inductive PyError where
  | readError
  | zeroDivisionError
  | valueError
  | syntaxError
  | importError
deriving DecidableEq, Repr

/-- Observable side effects of one analyze_codebase call, in program order:
opening a file, the time.sleep call with the exact fraction
1 / max_retries it is given, the ast.parse call, the call to the
function importlib.import_module with the module name it is given, and
the logger.error call of the except branch. -/
inductive Effect where
  | openFile (name : String)
  | sleepFor (num : Int) (den : Int)
  | parseFile (name : String)
  | importModule (modName : String)
  | logError (fileName : String) (err : PyError)
deriving DecidableEq, Repr

/-- One file yielded by os.walk: its base name (module_name and the log
messages use only the base name, since file_path.split on the slash keeps
the last component), whether opening and reading it succeeds, and the
ast.parse result of its content — some tree when parsing succeeds, none
when ast.parse raises. -/
structure SourceFile where
  name : String
  readOk : Bool
  parsed : Option (List Stmt)

/-- Embedding of the str.endswith test of analyser.py line 49: whether the
character sequence of the file name ends with the characters ".py". -/
def endsWithPy (name : String) : Bool :=
  List.isSuffixOf ".py".toList name.toList

/-- The CodeAnalyser object state: its only attribute is max_retries
(analyser.py line 28), a Python int. -/
structure CodeAnalyser where
  max_retries : Int
deriving DecidableEq, Repr

/-- The body of the per-function loop of analyze_codebase (lines 67-81): one
entry per collected function, with module_name the base file name,
parameters the positional argument names, docstring defaulted to the empty
string, and imported_modules recomputed by _get_imports on the same tree
for every function. -/
def fileEntries (fileName : String) (tree : List Stmt) : List APIDocumentationEntry :=
  (getFunctionsList tree).map (fun func =>
    { module_name := fileName
      function_name := func.funcName
      parameters := func.funcArgs
      docstring := func.funcDocstring.getD ""
      imported_modules := getImportsList tree })

/-- The per-file try block of analyze_codebase (analyser.py lines 53-85) on
one Python file.  importOk says whether importlib.import_module succeeds on
a given module name (this depends on the Python environment, e.g.
sys.path).  Steps in program order: open and read; time.sleep of
1 / max_retries (ZeroDivisionError when max_retries is 0, ValueError from
time.sleep when it is negative); ast.parse; importlib.import_module on the
splitext stem of the file name; then the per-function entry loop.  Any
failure is caught by the except branch, which logs and yields no entries
for this file. -/
def processFile (maxRetries : Int) (importOk : String → Bool) (f : SourceFile) :
    List Effect × List APIDocumentationEntry :=
  if !f.readOk then
    ([.openFile f.name, .logError f.name .readError], [])
  else if maxRetries = 0 then
    ([.openFile f.name, .logError f.name .zeroDivisionError], [])
  else if maxRetries < 0 then
    ([.openFile f.name, .logError f.name .valueError], [])
  else
    match f.parsed with
    | none =>
        ([.openFile f.name, .sleepFor 1 maxRetries, .parseFile f.name,
          .logError f.name .syntaxError], [])
    | some tree =>
        if !importOk (splitextStem f.name) then
          ([.openFile f.name, .sleepFor 1 maxRetries, .parseFile f.name,
            .importModule (splitextStem f.name), .logError f.name .importError], [])
        else
          ([.openFile f.name, .sleepFor 1 maxRetries, .parseFile f.name,
            .importModule (splitextStem f.name)],
           fileEntries f.name tree)

/-- Embedding of CodeAnalyser.analyze_codebase (analyser.py lines 35-87)
over the flattened os.walk file sequence of the directory.  Files whose
name does not end in ".py" are skipped before the try block.  The analyser
state is threaded through every per-file step; the method body contains no
assignment to self, so each step passes the state on unchanged.  Returns
the final state, the effect trace and documentation_entries. -/
def analyzeFiles (self : CodeAnalyser) (importOk : String → Bool) :
    List SourceFile → CodeAnalyser × List Effect × List APIDocumentationEntry
  | [] => (self, [], [])
  | f :: rest =>
      if endsWithPy f.name then
        let step := processFile self.max_retries importOk f
        let restResult := analyzeFiles self importOk rest
        (restResult.1, step.1 ++ restResult.2.1, step.2 ++ restResult.2.2)
      else
        analyzeFiles self importOk rest

/-- CodeAnalyser.analyze_codebase as a method on the analyser state. -/
def CodeAnalyser.analyze_codebase (self : CodeAnalyser) (importOk : String → Bool)
    (files : List SourceFile) :
    CodeAnalyser × List Effect × List APIDocumentationEntry :=
  analyzeFiles self importOk files

/-- Modelled from the spec: the bodies of APIMonitor._make_request and
APIMonitor._update_documentation are missing from src/ (monitor.py is cut
off in the middle of the _make_request signature).  Per the spec, the
system "separately polls external endpoints to refresh usage-based
documentation", so _make_request is modelled as returning an HTTP response
with an ok flag, a status_code, and a body whose JSON parse either
succeeds with some usage payload (abstracted as a Nat) or raises. -/
structure Response where
  ok : Bool
  status_code : Int
  jsonData : Option Nat
deriving DecidableEq, Repr

/-- Observable side effects of the monitoring loop, in program order: the
_make_request call, the logger.error call, the _update_documentation call
(modelled from the spec as the documentation-refresh effect), the
time.time read, and the time.sleep call. -/
inductive MEffect where
  | request (url : String)
  | monLog (msg : String)
  | updateDoc (endpointName : String) (data : Nat)
  | readClock
  | sleepSeconds (n : Nat)
deriving DecidableEq, Repr

/-- One endpoint iteration of the inner for loop of monitor_api_usage
(monitor.py lines 39-59).  env gives the outcome of _make_request on a
URL: none when the request raises, some response otherwise; a response
whose jsonData is none stands for a body on which response.json() raises.
clock is the value time.time() returns during this pass.  On a non-ok
response the failure is logged and the loop continues; on a raised
exception the except branch logs and continues; only an ok response with a
parsing body reaches _update_documentation and the last_updated write. -/
def pollEndpoint (env : String → Option Response) (clock : Nat)
    (lastUpdated : List (String × Nat)) (p : String × String) :
    List MEffect × List (String × Nat) :=
  match env p.2 with
  | none => ([.request p.2, .monLog ("Error monitoring " ++ p.1)], lastUpdated)
  | some r =>
      if !r.ok then
        ([.request p.2,
          .monLog ("Failed request to " ++ p.2 ++ ": " ++ toString r.status_code)],
         lastUpdated)
      else
        match r.jsonData with
        | none => ([.request p.2, .monLog ("Error monitoring " ++ p.1)], lastUpdated)
        | some d =>
            ([.request p.2, .updateDoc p.1 d, .readClock],
             (p.1, clock) :: lastUpdated)

/-- The inner for loop of monitor_api_usage over the endpoint dictionary in
iteration order, threading last_updated. -/
def monitorPoll (env : String → Option Response) (clock : Nat) :
    List (String × String) → List (String × Nat) →
    List MEffect × List (String × Nat)
  | [], lu => ([], lu)
  | p :: rest, lu =>
      let headStep := pollEndpoint env clock lu p
      let restStep := monitorPoll env clock rest headStep.2
      (headStep.1 ++ restStep.1, restStep.2)

/-- One iteration of the while True loop of monitor_api_usage: a full pass
over the endpoints followed by the fixed time.sleep of 60 seconds
(monitor.py line 61). -/
def monitorStep (env : String → Option Response) (clock : Nat)
    (endpoints : List (String × String)) (lu : List (String × Nat)) :
    List MEffect × List (String × Nat) :=
  let passStep := monitorPoll env clock endpoints lu
  (passStep.1 ++ [.sleepSeconds 60], passStep.2)

/-- The loop guard of monitor_api_usage is the literal True: it does not
depend on the loop state at all. -/
def monitorGuard (_lu : List (String × Nat)) : Bool := true

/-- The last_updated state reached after n iterations of the loop, starting
from the empty dictionary; envs gives the _make_request outcomes during
pass n, and pass n reads clock value n. -/
def monitorRun (envs : Nat → String → Option Response)
    (endpoints : List (String × String)) : Nat → List (String × Nat)
  | 0 => []
  | n + 1 => (monitorStep (envs n) n endpoints (monitorRun envs endpoints n)).2

/-- The effects emitted during iteration n of the loop. -/
def monitorStepEffects (envs : Nat → String → Option Response)
    (endpoints : List (String × String)) (n : Nat) : List MEffect :=
  (monitorStep (envs n) n endpoints (monitorRun envs endpoints n)).1

mutual

/-- Replaces every from-import statement in a tree by an inert statement,
leaving everything else unchanged: used to state that the import collector
is insensitive to from-import statements. -/
def stripFromImports : Stmt → Stmt
  | .funcDef n a d b => .funcDef n a d (stripFromImportsList b)
  | .asyncFuncDef n a d b => .asyncFuncDef n a d (stripFromImportsList b)
  | .importStmt ns => .importStmt ns
  | .importFrom _ _ => .other []
  | .other cs => .other (stripFromImportsList cs)

/-- stripFromImports mapped over a statement list. -/
def stripFromImportsList : List Stmt → List Stmt
  | [] => []
  | s :: rest => stripFromImports s :: stripFromImportsList rest

end

/-- True on the openFile effect. -/
def Effect.isOpen : Effect → Bool
  | .openFile _ => true
  | _ => false

/-- True on the parseFile effect. -/
def Effect.isParse : Effect → Bool
  | .parseFile _ => true
  | _ => false

/-- True on the sleepFor effect. -/
def Effect.isSleep : Effect → Bool
  | .sleepFor _ _ => true
  | _ => false

/-- The spec-side reading of the per-file analysis ("a single-pass visitor
collecting function definitions and import statements"): one traversal
collecting the functions, with the import list of the tree computed once
and shared by every entry. -/
def singlePassEntries (fileName : String) (tree : List Stmt) :
    List APIDocumentationEntry :=
  let imports := getImportsList tree
  (getFunctionsList tree).map (fun func =>
    { module_name := fileName
      function_name := func.funcName
      parameters := func.funcArgs
      docstring := func.funcDocstring.getD ""
      imported_modules := imports })

/-- Decides, from the inputs alone, whether the per-file try block fails:
the read failing, a non-positive max_retries (division by zero or a
negative sleep), an unparseable content, or a failing import. -/
def fileFails (maxRetries : Int) (importOk : String → Bool) (f : SourceFile) : Bool :=
  !f.readOk || decide (maxRetries ≤ 0) || f.parsed.isNone ||
    !importOk (splitextStem f.name)

/-- Concrete two-statement module used by closed witnesses: one plain
Python import statement and one function definition with a docstring. -/
def demoTree : List Stmt :=
  [.importStmt [⟨"os", none⟩], .funcDef "f" ["x"] (some "doc") []]

section Lemmas

/-- Unfolding characterisation of Occurs: f occurs in s when it is s or
occurs in one of the children of s. -/
theorem occurs_iff (f s : Stmt) :
    Occurs f s ↔ f = s ∨ ∃ c ∈ s.children, Occurs f c := by
  constructor
  · intro h
    cases h with
    | refl => exact Or.inl rfl
    | child c _ hc ho => exact Or.inr ⟨c, hc, ho⟩
  · rintro (rfl | ⟨c, hc, ho⟩)
    · exact Occurs.refl _
    · exact Occurs.child _ _ _ hc ho

mutual

/-- Membership in the function collector on one statement: exactly the
synchronous function definitions occurring anywhere in the tree. -/
theorem mem_getFunctionsStmt (f s : Stmt) :
    f ∈ getFunctionsStmt s ↔ f.isFuncDef = true ∧ Occurs f s := by
  cases s with
  | funcDef n a d b =>
      rw [getFunctionsStmt, occurs_iff]
      simp only [List.mem_append, List.mem_singleton, Stmt.children,
        mem_getFunctionsList f b]
      constructor
      · rintro (⟨hf, c, hc, ho⟩ | rfl)
        · exact ⟨hf, Or.inr ⟨c, hc, ho⟩⟩
        · exact ⟨rfl, Or.inl rfl⟩
      · rintro ⟨hf, rfl | ⟨c, hc, ho⟩⟩
        · exact Or.inr rfl
        · exact Or.inl ⟨hf, c, hc, ho⟩
  | asyncFuncDef n a d b =>
      rw [getFunctionsStmt, occurs_iff]
      simp only [Stmt.children, mem_getFunctionsList f b]
      constructor
      · rintro ⟨hf, c, hc, ho⟩
        exact ⟨hf, Or.inr ⟨c, hc, ho⟩⟩
      · rintro ⟨hf, rfl | ⟨c, hc, ho⟩⟩
        · cases hf
        · exact ⟨hf, c, hc, ho⟩
  | importStmt ns =>
      rw [getFunctionsStmt, occurs_iff]
      simp [Stmt.children]
      rintro hf rfl
      cases hf
  | importFrom m ns =>
      rw [getFunctionsStmt, occurs_iff]
      simp [Stmt.children]
      rintro hf rfl
      cases hf
  | other cs =>
      rw [getFunctionsStmt, occurs_iff]
      simp only [Stmt.children, mem_getFunctionsList f cs]
      constructor
      · rintro ⟨hf, c, hc, ho⟩
        exact ⟨hf, Or.inr ⟨c, hc, ho⟩⟩
      · rintro ⟨hf, rfl | ⟨c, hc, ho⟩⟩
        · cases hf
        · exact ⟨hf, c, hc, ho⟩

/-- Membership in the function collector on a statement list. -/
theorem mem_getFunctionsList (f : Stmt) (l : List Stmt) :
    f ∈ getFunctionsList l ↔ f.isFuncDef = true ∧ ∃ c ∈ l, Occurs f c := by
  cases l with
  | nil => simp [getFunctionsList]
  | cons s rest =>
      rw [getFunctionsList]
      simp only [List.mem_append, mem_getFunctionsStmt f s,
        mem_getFunctionsList f rest, List.mem_cons]
      constructor
      · rintro (⟨hf, ho⟩ | ⟨hf, c, hc, ho⟩)
        · exact ⟨hf, s, Or.inl rfl, ho⟩
        · exact ⟨hf, c, Or.inr hc, ho⟩
      · rintro ⟨hf, c, rfl | hc, ho⟩
        · exact Or.inl ⟨hf, ho⟩
        · exact Or.inr ⟨hf, c, hc, ho⟩

end

mutual

/-- The import collector is insensitive to from-import statements. -/
theorem getImportsStmt_strip (s : Stmt) :
    getImportsStmt (stripFromImports s) = getImportsStmt s := by
  cases s with
  | funcDef n a d b =>
      rw [stripFromImports, getImportsStmt, getImportsStmt,
        getImportsList_strip b]
  | asyncFuncDef n a d b =>
      rw [stripFromImports, getImportsStmt, getImportsStmt,
        getImportsList_strip b]
  | importStmt ns => rfl
  | importFrom m ns => rfl
  | other cs =>
      rw [stripFromImports, getImportsStmt, getImportsStmt,
        getImportsList_strip cs]

/-- List version of getImportsStmt_strip. -/
theorem getImportsList_strip (l : List Stmt) :
    getImportsList (stripFromImportsList l) = getImportsList l := by
  cases l with
  | nil => rfl
  | cons s rest =>
      rw [stripFromImportsList, getImportsList, getImportsList,
        getImportsStmt_strip s, getImportsList_strip rest]

end

/-- The analyser state is threaded through analyze_codebase unchanged: the
method body contains no assignment to self. -/
theorem analyzeFiles_state (self : CodeAnalyser) (iOk : String → Bool) :
    ∀ files, (analyzeFiles self iOk files).1 = self
  | [] => rfl
  | f :: rest => by
      simp only [analyzeFiles]
      split
      · exact analyzeFiles_state self iOk rest
      · exact analyzeFiles_state self iOk rest

/-- Per-file decomposition of one analysis step at the head of the walk. -/
theorem analyzeFiles_cons (self : CodeAnalyser) (iOk : String → Bool)
    (f : SourceFile) (rest : List SourceFile) :
    (analyzeFiles self iOk (f :: rest)).2.1 =
      (if endsWithPy f.name then (processFile self.max_retries iOk f).1 else []) ++
        (analyzeFiles self iOk rest).2.1 ∧
    (analyzeFiles self iOk (f :: rest)).2.2 =
      (if endsWithPy f.name then (processFile self.max_retries iOk f).2 else []) ++
        (analyzeFiles self iOk rest).2.2 := by
  simp only [analyzeFiles]
  split <;> simp

/-- The trace and the entry list of an analysis decompose over a split of
the walked file sequence. -/
theorem analyzeFiles_append (self : CodeAnalyser) (iOk : String → Bool) :
    ∀ l1 l2 : List SourceFile,
      analyzeFiles self iOk (l1 ++ l2) =
        (self,
         (analyzeFiles self iOk l1).2.1 ++ (analyzeFiles self iOk l2).2.1,
         (analyzeFiles self iOk l1).2.2 ++ (analyzeFiles self iOk l2).2.2)
  | [], l2 => by
      have h := analyzeFiles_state self iOk l2
      simp only [List.nil_append, analyzeFiles]
      exact Prod.ext h rfl
  | f :: l1, l2 => by
      have ih := analyzeFiles_append self iOk l1 l2
      show analyzeFiles self iOk (f :: (l1 ++ l2)) = _
      simp only [analyzeFiles]
      split
      · rw [ih]
        simp [List.append_assoc]
      · exact ih

/-- With max_retries equal to 0 the per-file step always fails before
ast.parse: the delay computation 1 divided by 0 raises ZeroDivisionError
inside the try block whenever the read succeeded, and in every case the
file contributes an error log and no entries. -/
theorem processFile_zero (iOk : String → Bool) (f : SourceFile) :
    (processFile 0 iOk f).2 = [] ∧
    (∃ e, Effect.logError f.name e ∈ (processFile 0 iOk f).1) ∧
    (f.readOk = true →
      Effect.logError f.name .zeroDivisionError ∈ (processFile 0 iOk f).1) := by
  obtain ⟨nm, ro, ps⟩ := f
  cases ro <;> simp [processFile]

/-- Whenever the inputs make the per-file try block fail, the except branch
logs an error naming the file and the file contributes no entries. -/
theorem processFile_fails (mr : Int) (iOk : String → Bool) (f : SourceFile)
    (h : fileFails mr iOk f = true) :
    (∃ e, Effect.logError f.name e ∈ (processFile mr iOk f).1) ∧
    (processFile mr iOk f).2 = [] := by
  obtain ⟨nm, ro, ps⟩ := f
  cases ro with
  | false => simp [processFile]
  | true =>
      by_cases h0 : mr = 0
      · simp [processFile, h0]
      · by_cases hneg : mr < 0
        · simp [processFile, h0, hneg]
        · rcases ps with _ | tree
          · simp [processFile, h0, hneg]
          · cases hio : iOk (splitextStem nm) with
            | false => simp [processFile, h0, hneg, hio]
            | true =>
                have hle : ¬ (mr ≤ 0) := by omega
                simp [fileFails, hle, hio] at h

/-- The effects of one endpoint iteration depend only on the environment
and the endpoint, not on the clock value or the last_updated dictionary. -/
theorem pollEndpoint_effects_const (env : String → Option Response)
    (c c' : Nat) (lu lu' : List (String × Nat)) (p : String × String) :
    (pollEndpoint env c lu p).1 = (pollEndpoint env c' lu' p).1 := by
  obtain ⟨nm, url⟩ := p
  cases henv : env url with
  | none => simp [pollEndpoint, henv]
  | some r =>
      cases hok : r.ok with
      | false => simp [pollEndpoint, henv, hok]
      | true =>
          cases hjson : r.jsonData with
          | none => simp [pollEndpoint, henv, hok, hjson]
          | some d => simp [pollEndpoint, henv, hok, hjson]

/-- The effects of a full pass depend only on the environment and the
endpoint list. -/
theorem monitorPoll_effects_const (env : String → Option Response) (c : Nat) :
    ∀ (eps : List (String × String)) (lu lu' : List (String × Nat)),
      (monitorPoll env c eps lu).1 = (monitorPoll env c eps lu').1
  | [], _, _ => rfl
  | p :: rest, lu, lu' => by
      simp only [monitorPoll]
      rw [pollEndpoint_effects_const env c c lu lu' p,
        monitorPoll_effects_const env c rest (pollEndpoint env c lu p).2
          (pollEndpoint env c lu' p).2]

/-- Pass effects decompose over a split of the endpoint list. -/
theorem monitorPoll_append (env : String → Option Response) (c : Nat) :
    ∀ (pre post : List (String × String)) (lu : List (String × Nat)),
      (monitorPoll env c (pre ++ post) lu).1 =
        (monitorPoll env c pre lu).1 ++ (monitorPoll env c post lu).1
  | [], post, lu => by simp [monitorPoll]
  | p :: pre, post, lu => by
      show (monitorPoll env c (p :: (pre ++ post)) lu).1 = _
      simp only [monitorPoll]
      rw [monitorPoll_append env c pre post (pollEndpoint env c lu p).2,
        monitorPoll_effects_const env c post (pollEndpoint env c lu p).2 lu,
        List.append_assoc]

/-- No endpoint iteration ever emits a sleep: the only sleep of the loop is
the fixed one after the pass. -/
theorem pollEndpoint_no_sleep (env : String → Option Response) (c : Nat)
    (lu : List (String × Nat)) (p : String × String) (k : Nat) :
    MEffect.sleepSeconds k ∉ (pollEndpoint env c lu p).1 := by
  obtain ⟨nm, url⟩ := p
  cases henv : env url with
  | none => simp [pollEndpoint, henv]
  | some r =>
      cases hok : r.ok with
      | false => simp [pollEndpoint, henv, hok]
      | true =>
          cases hjson : r.jsonData with
          | none => simp [pollEndpoint, henv, hok, hjson]
          | some d => simp [pollEndpoint, henv, hok, hjson]

/-- List version of pollEndpoint_no_sleep. -/
theorem monitorPoll_no_sleep (env : String → Option Response) (c : Nat) :
    ∀ (eps : List (String × String)) (lu : List (String × Nat)) (k : Nat),
      MEffect.sleepSeconds k ∉ (monitorPoll env c eps lu).1
  | [], _, _ => by simp [monitorPoll]
  | p :: rest, lu, k => by
      simp only [monitorPoll, List.mem_append]
      rintro (h | h)
      · exact pollEndpoint_no_sleep env c lu p k h
      · exact monitorPoll_no_sleep env c rest (pollEndpoint env c lu p).2 k h

end Lemmas

section Claims

/-- C9: the import collector records, for a plain import statement, the
alias name or the alias name followed by " as " and the asname; it
collects nothing from a from-import statement, and removing every
from-import statement from a tree leaves the collected import list
unchanged, so the imported_modules list of every entry omits all names
brought in via from-imports. -/
theorem imports_only_plain_import_statements :
    (∀ ns, getImportsStmt (.importStmt ns) = ns.map formatAlias) ∧
    (∀ n an, formatAlias ⟨n, some an⟩ = n ++ " as " ++ an) ∧
    (∀ n, formatAlias ⟨n, none⟩ = n) ∧
    (∀ m ns, getImportsStmt (.importFrom m ns) = []) ∧
    (∀ s, getImportsStmt (stripFromImports s) = getImportsStmt s) ∧
    (∀ l, getImportsList (stripFromImportsList l) = getImportsList l) :=
  ⟨fun _ => rfl, fun _ _ => rfl, fun _ => rfl, fun _ _ => rfl,
   getImportsStmt_strip, getImportsList_strip⟩

/-- C10: the function collector collects exactly the synchronous function
definitions occurring at any depth; on a def node the node itself is
appended after everything collected from its body (post-order, inner
functions first); an async def node is not collected though its body is
still traversed, and no collected node is an async def. -/
theorem functions_postorder_sync_only :
    (∀ f s, f ∈ getFunctionsStmt s ↔ f.isFuncDef = true ∧ Occurs f s) ∧
    (∀ n a d b, getFunctionsStmt (.funcDef n a d b) =
      getFunctionsList b ++ [.funcDef n a d b]) ∧
    (∀ n a d b, getFunctionsStmt (.asyncFuncDef n a d b) = getFunctionsList b) ∧
    (∀ f s, f ∈ getFunctionsStmt s → f.isAsyncFuncDef = false) := by
  refine ⟨mem_getFunctionsStmt, fun _ _ _ _ => rfl, fun _ _ _ _ => rfl, ?_⟩
  intro f s hf
  have h := (mem_getFunctionsStmt f s).mp hf
  cases f <;> simp_all [Stmt.isFuncDef, Stmt.isAsyncFuncDef]

/-- Concrete function definition nesting a function g and an async
function h, used by closed witnesses. -/
def demoOuterFunc : Stmt :=
  .funcDef "f" ["x"] none [.funcDef "g" [] none [], .asyncFuncDef "h" [] none []]

/-- Closed witness for C10: in a concrete function f enclosing a function g
and an async function h, the nested g is collected (it is a sync def
occurring in f), and every collected node is non-async. -/
theorem functions_postorder_sync_only_witness :
    Stmt.funcDef "g" [] none [] ∈ getFunctionsStmt demoOuterFunc ∧
    (Stmt.funcDef "g" [] none []).isAsyncFuncDef = false := by
  have h := functions_postorder_sync_only
  have hg : Stmt.funcDef "g" [] none [] ∈ getFunctionsStmt demoOuterFunc :=
    (h.1 (Stmt.funcDef "g" [] none []) demoOuterFunc).mpr
      ⟨rfl, Occurs.child _ _ _ (by simp [demoOuterFunc, Stmt.children]) (Occurs.refl _)⟩
  exact ⟨hg, h.2.2.2 (Stmt.funcDef "g" [] none []) demoOuterFunc hg⟩

/-- C1: the embedded analyze_codebase run on a concrete directory holding
one parseable Python file emits an importModule effect: analyser.py line
61 calls importlib.import_module on the analysed file's stem, importing
(and hence executing) the analysed module, contrary to the claim that
analysing a file never imports or executes the analysed code. -/
theorem analysis_imports_the_analysed_module :
    Effect.importModule "mod" ∈
      ((CodeAnalyser.mk 3).analyze_codebase (fun _ => true)
        [⟨"mod.py", true, some demoTree⟩]).2.1 := by
  decide

/-- C2: the entry list of an analysis decomposes around any single file of
the walk (so the entries collected from the other files are returned no
matter what happens on that file); whenever the per-file try block fails,
the except branch logs an error naming the file and that file contributes
no entries; and a per-file error log always reaches the trace of the whole
analyze_codebase call, which continues with the remaining files. -/
theorem per_file_errors_caught_and_analysis_continues :
    (∀ (self : CodeAnalyser) (iOk : String → Bool) (pre post : List SourceFile)
        (f : SourceFile),
      (self.analyze_codebase iOk (pre ++ f :: post)).2.2 =
        (self.analyze_codebase iOk pre).2.2 ++
          (if endsWithPy f.name then (processFile self.max_retries iOk f).2
            else []) ++
          (self.analyze_codebase iOk post).2.2) ∧
    (∀ (mr : Int) (iOk : String → Bool) (f : SourceFile),
      fileFails mr iOk f = true →
      (∃ e, Effect.logError f.name e ∈ (processFile mr iOk f).1) ∧
        (processFile mr iOk f).2 = []) ∧
    (∀ (self : CodeAnalyser) (iOk : String → Bool) (pre post : List SourceFile)
        (f : SourceFile) (e : PyError),
      endsWithPy f.name = true →
      Effect.logError f.name e ∈ (processFile self.max_retries iOk f).1 →
      Effect.logError f.name e ∈
        (self.analyze_codebase iOk (pre ++ f :: post)).2.1) := by
  refine ⟨?_, processFile_fails, ?_⟩
  · intro self iOk pre post f
    simp only [CodeAnalyser.analyze_codebase]
    rw [analyzeFiles_append self iOk pre (f :: post)]
    have hcons := (analyzeFiles_cons self iOk f post).2
    simp only []
    rw [hcons]
    simp [List.append_assoc]
  · intro self iOk pre post f e hpy hmem
    simp only [CodeAnalyser.analyze_codebase]
    rw [analyzeFiles_append self iOk pre (f :: post)]
    refine List.mem_append_right _ ?_
    rw [(analyzeFiles_cons self iOk f post).1, if_pos hpy]
    exact List.mem_append_left _ hmem

/-- Closed witness for C2: a directory with one good file followed by one
unparseable file; the bad file logs an error, and that log reaches the
whole-call trace while analysis continues. -/
theorem per_file_errors_witness :
    (∃ e, Effect.logError "bad.py" e ∈
      (processFile 3 (fun _ => true) ⟨"bad.py", true, none⟩).1) ∧
    Effect.logError "bad.py" PyError.syntaxError ∈
      ((CodeAnalyser.mk 3).analyze_codebase (fun _ => true)
        [⟨"good.py", true, some demoTree⟩, ⟨"bad.py", true, none⟩]).2.1 := by
  have h := per_file_errors_caught_and_analysis_continues
  refine ⟨(h.2.1 3 (fun _ => true) ⟨"bad.py", true, none⟩ (by decide)).1, ?_⟩
  exact h.2.2 ⟨3⟩ (fun _ => true) [⟨"good.py", true, some demoTree⟩] []
    ⟨"bad.py", true, none⟩ PyError.syntaxError (by decide) (by decide)

/-- C4: every per-file step opens the file exactly once and parses it at
most once, whatever max_retries is; the only sleep ever emitted carries the
exact fraction 1 over max_retries; and for any two positive max_retries
values the entries and the sleep-erased traces coincide, so max_retries
only scales the per-file delay and never causes a retry. -/
theorem max_retries_never_retries :
    (∀ (mr : Int) (iOk : String → Bool) (f : SourceFile),
      (processFile mr iOk f).1.filter Effect.isOpen = [Effect.openFile f.name] ∧
      ((processFile mr iOk f).1.filter Effect.isParse).length ≤ 1) ∧
    (∀ (mr : Int) (iOk : String → Bool) (f : SourceFile) (a b : Int),
      Effect.sleepFor a b ∈ (processFile mr iOk f).1 → a = 1 ∧ b = mr) ∧
    (∀ (mr mr' : Int) (iOk : String → Bool) (f : SourceFile),
      0 < mr → 0 < mr' →
      (processFile mr iOk f).2 = (processFile mr' iOk f).2 ∧
      (processFile mr iOk f).1.filter (fun e => !e.isSleep) =
        (processFile mr' iOk f).1.filter (fun e => !e.isSleep)) := by
  refine ⟨?_, ?_, ?_⟩
  · intro mr iOk f
    obtain ⟨nm, ro, ps⟩ := f
    cases ro with
    | false => simp [processFile, Effect.isOpen, Effect.isParse]
    | true =>
        by_cases h0 : mr = 0
        · simp [processFile, h0, Effect.isOpen, Effect.isParse]
        · by_cases hneg : mr < 0
          · simp [processFile, h0, hneg, Effect.isOpen, Effect.isParse]
          · rcases ps with _ | tree
            · simp [processFile, h0, hneg, Effect.isOpen, Effect.isParse]
            · cases hio : iOk (splitextStem nm) <;>
                simp [processFile, h0, hneg, hio, Effect.isOpen, Effect.isParse]
  · intro mr iOk f a b hmem
    obtain ⟨nm, ro, ps⟩ := f
    cases ro with
    | false => simp [processFile] at hmem
    | true =>
        by_cases h0 : mr = 0
        · simp [processFile, h0] at hmem
        · by_cases hneg : mr < 0
          · simp [processFile, h0, hneg] at hmem
          · rcases ps with _ | tree
            · simp [processFile, h0, hneg] at hmem
              exact hmem
            · cases hio : iOk (splitextStem nm) <;>
                simp [processFile, h0, hneg, hio] at hmem <;> exact hmem
  · intro mr mr' iOk f hmr hmr'
    obtain ⟨nm, ro, ps⟩ := f
    have h0 : ¬(mr = 0) := by omega
    have h0' : ¬(mr' = 0) := by omega
    have hneg : ¬(mr < 0) := by omega
    have hneg' : ¬(mr' < 0) := by omega
    cases ro with
    | false => simp [processFile]
    | true =>
        rcases ps with _ | tree
        · simp [processFile, h0, h0', hneg, hneg', Effect.isSleep]
        · cases hio : iOk (splitextStem nm) <;>
            simp [processFile, h0, h0', hneg, hneg', hio, Effect.isSleep]

/-- Closed witness for C4: with max_retries 5 the emitted sleep carries the
fraction 1 over 5, and the entries with max_retries 5 and 7 coincide. -/
theorem max_retries_never_retries_witness :
    ((1 : Int) = 1 ∧ (5 : Int) = 5) ∧
    (processFile 5 (fun _ => true) ⟨"mod.py", true, some demoTree⟩).2 =
      (processFile 7 (fun _ => true) ⟨"mod.py", true, some demoTree⟩).2 := by
  have h := max_retries_never_retries
  refine ⟨h.2.1 5 (fun _ => true) ⟨"mod.py", true, some demoTree⟩ 1 5 (by decide), ?_⟩
  exact (h.2.2 5 7 (fun _ => true) ⟨"mod.py", true, some demoTree⟩
    (by decide) (by decide)).1

/-- C5: recomputing the import list once per function is equivalent to the
single-pass analysis that computes the import list once and shares it: the
per-file entry loop produces exactly the single-pass entries, and on every
file whose content parses the per-file step yields either those single-pass
entries or nothing at all (when an earlier step of the try block failed). -/
theorem recomputed_imports_equal_single_pass :
    (∀ (fileName : String) (tree : List Stmt),
      fileEntries fileName tree = singlePassEntries fileName tree) ∧
    (∀ (mr : Int) (iOk : String → Bool) (f : SourceFile) (tree : List Stmt),
      f.parsed = some tree →
      (processFile mr iOk f).2 = singlePassEntries f.name tree ∨
        (processFile mr iOk f).2 = []) := by
  refine ⟨fun _ _ => rfl, ?_⟩
  intro mr iOk f tree hp
  obtain ⟨nm, ro, ps⟩ := f
  rcases ps with _ | t
  · cases hp
  · obtain rfl : t = tree := Option.some.inj hp
    cases ro with
    | false => right; simp [processFile]
    | true =>
        by_cases h0 : mr = 0
        · right; simp [processFile, h0]
        · by_cases hneg : mr < 0
          · right; simp [processFile, h0, hneg]
          · cases hio : iOk (splitextStem nm) with
            | false => right; simp [processFile, h0, hneg, hio]
            | true =>
                left
                simp [processFile, h0, hneg, hio]
                rfl

/-- Closed witness for C5 on a concrete parseable file. -/
theorem recomputed_imports_witness :
    (processFile 3 (fun _ => true) ⟨"mod.py", true, some demoTree⟩).2 =
      singlePassEntries "mod.py" demoTree ∨
    (processFile 3 (fun _ => true) ⟨"mod.py", true, some demoTree⟩).2 = [] :=
  recomputed_imports_equal_single_pass.2 3 (fun _ => true)
    ⟨"mod.py", true, some demoTree⟩ demoTree rfl

/-- C7: analyze_codebase does not mutate the analyser: the returned state is
the starting state, its max_retries is unchanged, and running the call
again from the post-state over the same directory contents returns an equal
entry list. -/
theorem analyze_codebase_no_mutation (self : CodeAnalyser) (iOk : String → Bool)
    (files : List SourceFile) :
    (self.analyze_codebase iOk files).1 = self ∧
    (self.analyze_codebase iOk files).1.max_retries = self.max_retries ∧
    ((self.analyze_codebase iOk files).1.analyze_codebase iOk files).2.2 =
      (self.analyze_codebase iOk files).2.2 := by
  have h : (self.analyze_codebase iOk files).1 = self :=
    analyzeFiles_state self iOk files
  exact ⟨h, by rw [h], by rw [h]⟩

/-- C8: with max_retries 0 the delay computation divides by zero inside the
per-file try block, so every Python file of the walk gets an error logged
(specifically a ZeroDivisionError whenever its read succeeded) and
analyze_codebase returns the empty entry list on every directory. -/
theorem zero_max_retries_yields_no_entries (iOk : String → Bool)
    (files : List SourceFile) :
    ((CodeAnalyser.mk 0).analyze_codebase iOk files).2.2 = [] ∧
    (∀ f ∈ files, endsWithPy f.name = true →
      (∃ e, Effect.logError f.name e ∈
        ((CodeAnalyser.mk 0).analyze_codebase iOk files).2.1) ∧
      (f.readOk = true →
        Effect.logError f.name PyError.zeroDivisionError ∈
          ((CodeAnalyser.mk 0).analyze_codebase iOk files).2.1)) := by
  simp only [CodeAnalyser.analyze_codebase]
  induction files with
  | nil => exact ⟨rfl, by intro f hf; cases hf⟩
  | cons g rest ih =>
      have hcons := analyzeFiles_cons ⟨0⟩ iOk g rest
      constructor
      · rw [hcons.2, ih.1]
        split <;> simp [(processFile_zero iOk g).1]
      · intro f hf hpy
        rcases List.mem_cons.mp hf with rfl | hmem
        · constructor
          · obtain ⟨e, he⟩ := (processFile_zero iOk f).2.1
            refine ⟨e, ?_⟩
            rw [hcons.1, if_pos hpy]
            exact List.mem_append_left _ he
          · intro hro
            rw [hcons.1, if_pos hpy]
            exact List.mem_append_left _ ((processFile_zero iOk f).2.2 hro)
        · have hres := ih.2 f hmem hpy
          constructor
          · obtain ⟨e, he⟩ := hres.1
            refine ⟨e, ?_⟩
            rw [hcons.1]
            exact List.mem_append_right _ he
          · intro hro
            rw [hcons.1]
            exact List.mem_append_right _ (hres.2 hro)

/-- Closed witness for C8 on a concrete one-file directory. -/
theorem zero_max_retries_witness :
    ((CodeAnalyser.mk 0).analyze_codebase (fun _ => true)
        [⟨"mod.py", true, some demoTree⟩]).2.2 = [] ∧
    Effect.logError "mod.py" PyError.zeroDivisionError ∈
      ((CodeAnalyser.mk 0).analyze_codebase (fun _ => true)
        [⟨"mod.py", true, some demoTree⟩]).2.1 := by
  have h := zero_max_retries_yields_no_entries (fun _ => true)
    [⟨"mod.py", true, some demoTree⟩]
  exact ⟨h.1, (h.2 ⟨"mod.py", true, some demoTree⟩ (by simp) (by decide)).2 rfl⟩

/-- C3: the while condition of monitor_api_usage is constantly true
whatever state the loop reaches, every iteration n is defined and its
effect list ends with the fixed time.sleep of 60 seconds, no other sleep
duration is ever emitted (no backoff), and the state after iteration n + 1
is obtained by running one more full pass on the state after iteration n:
the loop repeats forever with a fixed 60-second interval. -/
theorem monitor_loop_sleeps_sixty_and_repeats
    (envs : Nat → String → Option Response)
    (endpoints : List (String × String)) (n : Nat) :
    monitorGuard (monitorRun envs endpoints n) = true ∧
    (monitorStepEffects envs endpoints n).getLast? =
      some (MEffect.sleepSeconds 60) ∧
    (∀ k, MEffect.sleepSeconds k ∈ monitorStepEffects envs endpoints n →
      k = 60) ∧
    monitorRun envs endpoints (n + 1) =
      (monitorStep (envs n) n endpoints (monitorRun envs endpoints n)).2 := by
  refine ⟨rfl, ?_, ?_, rfl⟩
  · simp only [monitorStepEffects, monitorStep]
    rw [List.getLast?_append_cons]
    rfl
  · intro k hk
    simp only [monitorStepEffects, monitorStep, List.mem_append] at hk
    rcases hk with h | h
    · exact absurd h (monitorPoll_no_sleep _ _ _ _ k)
    · simpa using h

/-- Closed witness for C3 at a concrete environment, endpoint list and
iteration. -/
theorem monitor_loop_witness :
    (monitorStepEffects (fun _ _ => none) [("svc", "u")] 0).getLast? =
      some (MEffect.sleepSeconds 60) ∧ 60 = 60 := by
  have h := monitor_loop_sleeps_sixty_and_repeats (fun _ _ => none)
    [("svc", "u")] 0
  exact ⟨h.2.1, h.2.2.1 60 (by decide)⟩

/-- C6: one endpoint iteration reaches the documentation update exactly
when the request returned a response that is ok and whose body parses as
JSON; in every other case the iteration issues the request and then only
logs an error; and the pass effects decompose around any endpoint, so the
loop continues with the next endpoint whatever happened on this one. -/
theorem monitor_updates_only_on_ok_json :
    (∀ (env : String → Option Response) (c : Nat) (lu : List (String × Nat))
        (nm url : String) (d : Nat),
      MEffect.updateDoc nm d ∈ (pollEndpoint env c lu (nm, url)).1 ↔
        ∃ r, env url = some r ∧ r.ok = true ∧ r.jsonData = some d) ∧
    (∀ (env : String → Option Response) (c : Nat) (lu : List (String × Nat))
        (nm url : String),
      ¬(∃ r d, env url = some r ∧ r.ok = true ∧ r.jsonData = some d) →
      ∃ m, (pollEndpoint env c lu (nm, url)).1 =
        [.request url, .monLog m]) ∧
    (∀ (env : String → Option Response) (c : Nat) (lu : List (String × Nat))
        (pre post : List (String × String)) (p : String × String),
      (monitorPoll env c (pre ++ p :: post) lu).1 =
        (monitorPoll env c pre lu).1 ++ (pollEndpoint env c lu p).1 ++
          (monitorPoll env c post lu).1) := by
  refine ⟨?_, ?_, ?_⟩
  · intro env c lu nm url d
    cases henv : env url with
    | none => simp [pollEndpoint, henv]
    | some r =>
        cases hok : r.ok with
        | false => simp [pollEndpoint, henv, hok]
        | true =>
            cases hjson : r.jsonData with
            | none => simp [pollEndpoint, henv, hok, hjson]
            | some d0 =>
                simp [pollEndpoint, henv, hok, hjson]
                exact eq_comm
  · intro env c lu nm url hne
    cases henv : env url with
    | none => exact ⟨"Error monitoring " ++ nm, by simp [pollEndpoint, henv]⟩
    | some r =>
        cases hok : r.ok with
        | false =>
            exact ⟨"Failed request to " ++ url ++ ": " ++ toString r.status_code,
              by simp [pollEndpoint, henv, hok]⟩
        | true =>
            cases hjson : r.jsonData with
            | none => exact ⟨"Error monitoring " ++ nm, by simp [pollEndpoint, henv, hok, hjson]⟩
            | some d => exact absurd ⟨r, d, henv, hok, hjson⟩ hne
  · intro env c lu pre post p
    rw [monitorPoll_append env c pre (p :: post) lu]
    simp only [monitorPoll]
    rw [monitorPoll_effects_const env c post (pollEndpoint env c lu p).2 lu]
    exact (List.append_assoc _ _ _).symm

/-- Closed witness for C6: an always-ok JSON environment reaches the
update, and an always-raising environment only logs. -/
theorem monitor_updates_witness :
    MEffect.updateDoc "svc" 7 ∈
      (pollEndpoint (fun _ => some ⟨true, 200, some 7⟩) 0 [] ("svc", "u")).1 ∧
    ∃ m, (pollEndpoint (fun _ => none) 0 [] ("svc", "u")).1 =
      [.request "u", .monLog m] := by
  have h := monitor_updates_only_on_ok_json
  refine ⟨(h.1 (fun _ => some ⟨true, 200, some 7⟩) 0 [] "svc" "u" 7).mpr
    ⟨⟨true, 200, some 7⟩, rfl, rfl, rfl⟩, ?_⟩
  exact h.2.1 (fun _ => none) 0 [] "svc" "u" (by rintro ⟨r, d, h', _⟩; cases h')

end Claims

end AutoAPI
